import Mathlib

/-! Verification development for the twister stream-processing worker.

The definitions below are a shallow embedding of the Go sources:

* `DelayedCommit` (erebos consumer library, commit reassembler),
* `Twister.process`, `Twister.updateOffset`, `Twister.run` and the
  drain loop (internal/twister),
* `Dispatch` (internal/twister/dispatch.go),
* `MetricBatch.Split` (legacy metric format library),
* the `delay` wait-policy counter (uint32 with wraparound).

Go maps are embedded as association lists (`alookup`/`aset`/`aerase`
below, first-match semantics, matching a Go map in which every key is
written at most once).  Channel sends that only produce effects
(commit notifications, heartbeat calls, producer submissions, death
reports) are embedded as traces accumulated in the state.  Goroutine
interleaving between the per-record submission tasks is abstracted to
program order of the spawn sites; this preserves the multisets and
counts the claims quantify over.  float64 values and time.Time values
are only ever copied by the embedded code, never computed with, so
they are carried as uninterpreted bit patterns / unix seconds.
-/

namespace Twister

/-- Association-list read, embedding a Go map read (first match wins;
the embedded states never hold a key twice). -/
def alookup {α β : Type} [DecidableEq α] : List (α × β) → α → Option β
  | [], _ => none
  | (k, v) :: rest, key => if k = key then some v else alookup rest key

/-- Association-list write, embedding a Go map assignment. -/
def aset {α β : Type} [DecidableEq α] : List (α × β) → α → β → List (α × β)
  | [], key, val => [(key, val)]
  | (k, v) :: rest, key, val =>
      if k = key then (k, val) :: rest else (k, v) :: aset rest key val

/-- Association-list delete, embedding a Go `delete(m, key)`. -/
def aerase {α β : Type} [DecidableEq α] : List (α × β) → α → List (α × β)
  | [], _ => []
  | (k, v) :: rest, key => if k = key then rest else (k, v) :: aerase rest key

/-- erebos.Commit: the commit notification a processor sends to
DelayedCommit (topic, partition, offset). -/
structure Commit where
  Topic : String
  Partition : Int
  Offset : Int
deriving DecidableEq, Repr

/-- State of the erebos DelayedCommit goroutine: the two nested maps
`offsets` (topic -> partition -> last committed offset) and
`uncommitted` (topic -> partition -> pending notifications), plus the
trace of offsets handed to `cg.CommitUpto` in call order.  Note that
the Go function only ever writes the outer level of `offsets` (it
creates empty inner maps); no code path assigns
`offsets[topic][partition]`. -/
structure DCState where
  offsets : List (String × List (Int × Int))
  uncommitted : List (String × List (Int × List Commit))
  committed : List Commit
deriving Repr

/-- Read of the nested Go map `offsets[t][p]`: a missing outer or
inner key yields the int64 zero value. -/
def lookupOffset (m : List (String × List (Int × Int))) (t : String) (p : Int) : Int :=
  match alookup m t with
  | none => 0
  | some inner => (alookup inner p).getD 0

/-- Read of the nested Go map `uncommitted[t][p]`: a missing key
yields the nil slice, over which a range loop does nothing. -/
def lookupPending (m : List (String × List (Int × List Commit))) (t : String) (p : Int) :
    List Commit :=
  match alookup m t with
  | none => []
  | some inner => (alookup inner p).getD []

/-- Write of the nested Go map `uncommitted[t][p] = v`. -/
def setPending (m : List (String × List (Int × List Commit))) (t : String) (p : Int)
    (v : List Commit) : List (String × List (Int × List Commit)) :=
  match alookup m t with
  | none => aset m t [(p, v)]
  | some inner => aset m t (aset inner p v)

/-- The scan of `uncommitted[n.Topic][n.Partition]` in DelayedCommit:
find the first entry whose offset is exactly `last+1`, returning it
and the list with that entry removed (the Go code removes index `i`
with an append of the two sublists). -/
def findCommittable (last : Int) : List Commit → Option (Commit × List Commit)
  | [] => none
  | c :: rest =>
      if last = c.Offset - 1 then some (c, rest)
      else
        match findCommittable last rest with
        | some (d, r) => some (d, c :: r)
        | none => none

/-- Fuel-indexed core of the doubled `uncommittedloop`: each found
entry removes one element from the pending slice, so a fuel equal to
the slice length makes the recursion structural without changing the
computed value. -/
def dcSweepFuel : Nat → Int → List Commit → List Commit × List Commit
  | 0, _, pending => ([], pending)
  | fuel + 1, last, pending =>
      match findCommittable last pending with
      | none => ([], pending)
      | some (c, rest) =>
          let out := dcSweepFuel fuel last rest
          (c :: out.1, out.2)

/-- The doubled `uncommittedloop` of DelayedCommit: repeatedly scan
the pending slice for an entry whose offset is `last+1`, commit it,
remove it and restart the scan; stop when a full pass finds nothing.
Faithful to the source, `last` is never advanced inside the loop
(the Go code re-reads `offsets[t][p]`, which no code path updates).
Returns the commits emitted (in order) and the remaining pending
slice. -/
def dcSweep (last : Int) (pending : List Commit) : List Commit × List Commit :=
  dcSweepFuel pending.length last pending

/-- One notification arriving at DelayedCommit (the `case n := <-notify`
arm).  Mirrors the source branch for branch: initialize the per-topic
maps if absent; if `offsets[t][p] == 0` commit immediately; else if
`offsets[t][p] == n.Offset-1` commit and sweep; else store `n` in the
pending slice.  As in the source, `offsets[t][p]` is never assigned
after a commit. -/
def dcNotify (s : DCState) (n : Commit) : DCState :=
  let s :=
    if (alookup s.offsets n.Topic).isNone then
      { s with offsets := aset s.offsets n.Topic [],
               uncommitted := aset s.uncommitted n.Topic [] }
    else s
  let last := lookupOffset s.offsets n.Topic n.Partition
  if last = 0 then
    { s with committed := s.committed ++ [n] }
  else if last = n.Offset - 1 then
    let out := dcSweep last (lookupPending s.uncommitted n.Topic n.Partition)
    { s with committed := s.committed ++ [n] ++ out.1,
             uncommitted := setPending s.uncommitted n.Topic n.Partition out.2 }
  else
    { s with
        uncommitted := setPending s.uncommitted n.Topic n.Partition
          (lookupPending s.uncommitted n.Topic n.Partition ++ [n]) }

/-- DelayedCommit run over a finite sequence of notifications. -/
def dcRun (s : DCState) (ns : List Commit) : DCState :=
  ns.foldl dcNotify s

/-- Initial DelayedCommit state (both maps freshly made, nothing
committed). -/
def dcInit : DCState := ⟨[], [], []⟩

/-- A sequence of offsets is strictly increasing and contiguous when
each element is exactly one more than its predecessor. -/
def contiguousAsc : List Int → Bool
  | [] => true
  | [_] => true
  | a :: b :: r => (b == a + 1) && contiguousAsc (b :: r)

/-- IEEE-754 double carried as an uninterpreted bit pattern: the
embedded code (Split, process) only ever copies float64 values, never
computes with them. -/
structure FloatVal where
  bits : Nat
deriving DecidableEq, Repr

/-- legacy.FloatMetric. -/
structure FloatMetric where
  Metric : String
  Subtype : String
  Value : FloatVal
deriving DecidableEq, Repr

/-- legacy.StringMetric. -/
structure StringMetric where
  Metric : String
  Subtype : String
  Value : String
deriving DecidableEq, Repr

/-- legacy.IntMetric (int64 value). -/
structure IntMetric where
  Metric : String
  Subtype : String
  Value : Int
deriving DecidableEq, Repr

/-- legacy.MetricData: one measurement cycle inside a batch.
time.Time is carried as unix seconds. -/
structure MetricData where
  Time : Int
  FloatMetrics : List FloatMetric
  StringMetrics : List StringMetric
  IntMetrics : List IntMetric
deriving DecidableEq, Repr

/-- legacy.MetricBatch after a successful parse. -/
structure MetricBatch where
  HostID : Int
  Protocol : Int
  Data : List MetricData
deriving DecidableEq, Repr

/-- legacy.MetricValue: multi-typed value holder of MetricSplit; the
fields not used by a record keep their Go zero values. -/
structure MetricValue where
  IntVal : Int
  StrVal : String
  FlpVal : FloatVal
deriving DecidableEq, Repr

/-- legacy.MetricSplit: one self-contained metric produced by Split.
The Go field named Type is called Typ here (Type is a Lean keyword);
Labels (map[string]string, never set by Split) is an association
list. -/
structure MetricSplit where
  AssetID : Int
  Path : String
  TS : Int
  Typ : String
  Unit : String
  Val : MetricValue
  Tags : List String
  Labels : List (String × String)
deriving DecidableEq, Repr

/-- The float feeder of MetricBatch.Split: one record per float
metric of the block, Type `real`, tags holding the subtype. -/
def splitFloats (hostID : Int) (time : Int) (fs : List FloatMetric) : List MetricSplit :=
  fs.map fun f =>
    { AssetID := hostID, Path := f.Metric, TS := time, Typ := "real", Unit := "",
      Val := { IntVal := 0, StrVal := "", FlpVal := f.Value },
      Tags := [f.Subtype], Labels := [] }

/-- The string feeder of MetricBatch.Split. -/
def splitStrings (hostID : Int) (time : Int) (ss : List StringMetric) : List MetricSplit :=
  ss.map fun sm =>
    { AssetID := hostID, Path := sm.Metric, TS := time, Typ := "string", Unit := "",
      Val := { IntVal := 0, StrVal := sm.Value, FlpVal := ⟨0⟩ },
      Tags := [sm.Subtype], Labels := [] }

/-- The integer feeder of MetricBatch.Split. -/
def splitInts (hostID : Int) (time : Int) (is : List IntMetric) : List MetricSplit :=
  is.map fun im =>
    { AssetID := hostID, Path := im.Metric, TS := time, Typ := "integer", Unit := "",
      Val := { IntVal := im.Value, StrVal := "", FlpVal := ⟨0⟩ },
      Tags := [im.Subtype], Labels := [] }

/-- One data block of Split under the intended synchronization (the
vendored legacy split.go, whose WaitGroups are used correctly): the
three feeder goroutines push into one buffered channel sized to the
total metric count and the collector appends every record, so the
block contributes its floats, strings and ints (in feeder spawn
order).  The solnx variant of the source moves the WaitGroup Add
calls inside the goroutines and drops every Done call; its actual
behavior is modeled by splitBlockRace below, of which this function
is the unique non-deadlocking, non-panicking, nothing-lost outcome.
On a batch with no data blocks no goroutine is spawned and both
variants deterministically return the empty list. -/
def splitData (hostID : Int) (d : MetricData) : List MetricSplit :=
  splitFloats hostID d.Time d.FloatMetrics
    ++ splitStrings hostID d.Time d.StringMetrics
    ++ splitInts hostID d.Time d.IntMetrics

/-- legacy MetricBatch.Split under the intended synchronization: the
outer loop runs the blocks in order and the collector appends every
received record to the result.  See splitData for the relation to
the broken solnx variant modeled by splitRace. -/
def MetricBatch.Split (m : MetricBatch) : List MetricSplit :=
  m.Data.foldl (fun res d => res ++ splitData m.HostID d) []

/-- Outcome of running the solnx Split on one schedule: a returned
value, a goroutine deadlock in a WaitGroup Wait, or the runtime
panic of a send on the closed channel. -/
inductive SplitOutcome where
  | ok (res : List MetricSplit)
  | deadlock
  | panicSendOnClosed
deriving DecidableEq, Repr

/-- Scheduling choices the Go runtime is free to make for one data
block of the solnx Split, whose goroutines call wg.Add(1) and
cwg.Add(1) as their first statement and never call Done:

* `feederAddBeforeWait`: some feeder executed its wg.Add(1) before
  the main goroutine checked wg.Wait();
* `sendAfterClose`: some feeder send executes after close(collect);
* `collectorAddBeforeWait`: the collector executed its cwg.Add(1)
  before the main goroutine checked cwg.Wait();
* `collectorRanBeforeReturn`: the collector drained the channel and
  finished its appends before the main goroutine read res. -/
structure BlockSchedule where
  feederAddBeforeWait : Bool
  sendAfterClose : Bool
  collectorAddBeforeWait : Bool
  collectorRanBeforeReturn : Bool
deriving DecidableEq, Repr

/-- One data block of the solnx Split (the source pinned by the
claims) under a given schedule.  Because no goroutine ever calls
wg.Done or cwg.Done, a Wait whose counter was incremented first
blocks forever; a Wait that ran before the Add returns at once, with
nothing synchronizing the feeders or the collector against the main
goroutine: sends racing past close(collect) panic, and collector
appends racing past the return are missing from the result. -/
def splitBlockRace (hostID : Int) (d : MetricData) (sch : BlockSchedule) : SplitOutcome :=
  let total := d.FloatMetrics.length + d.StringMetrics.length + d.IntMetrics.length
  if sch.feederAddBeforeWait then SplitOutcome.deadlock
  else if sch.sendAfterClose && decide (0 < total) then SplitOutcome.panicSendOnClosed
  else if sch.collectorAddBeforeWait then SplitOutcome.deadlock
  else if sch.collectorRanBeforeReturn then SplitOutcome.ok (splitData hostID d)
  else SplitOutcome.ok []

/-- The solnx Split over the blocks of a batch, each paired with a
schedule; a deadlock or panic in a block aborts the call. -/
def splitRace (hostID : Int) : List (MetricData × BlockSchedule) → List MetricSplit →
    SplitOutcome
  | [], res => SplitOutcome.ok res
  | (d, sch) :: rest, res =>
      match splitBlockRace hostID d sch with
      | SplitOutcome.ok r => splitRace hostID rest (res ++ r)
      | out => out

/-- MetricBatch.Split of the solnx source under per-block schedules. -/
def MetricBatch.SplitRace (m : MetricBatch) (schs : List BlockSchedule) : SplitOutcome :=
  splitRace m.HostID (m.Data.zip schs) []

/-- erebos.Transport: the envelope moving through the system.  The
payload bytes are carried abstractly; `none` embeds a nil Value.  The
commit back-channel is embedded by the `commits` trace of `WState`. -/
structure Transport where
  HostID : Int
  Value : Option (List Nat)
  Topic : String
  Partition : Int
  Offset : Int
deriving DecidableEq, Repr

/-- erebos.IsHeartbeat: true for the sentinel host id -1, topic
erebos.heartbeat, partition -1, offset -1. -/
def IsHeartbeat (t : Transport) : Bool :=
  t.HostID == -1 && t.Topic == "erebos.heartbeat" && t.Partition == -1 && t.Offset == -1

/-- Twister.commit: builds the erebos.Commit notification sent on the
envelope back-channel. -/
def commitOf (msg : Transport) : Commit :=
  ⟨msg.Topic, msg.Partition, msg.Offset⟩

/-- One operation on the shared delay wait-policy counter. -/
inductive DelayOp where
  | use
  | done
deriving DecidableEq, Repr

/-- The delay counter is a Go uint32: Use adds 1, Done adds
2^32 - 1 (the two-complement of one), both mod 2^32.  A Done with no
matching Use therefore wraps the counter around instead of going to
-1, and `Delay.Wait` never observes zero again. -/
def applyDelayOps : Nat → List DelayOp → Nat
  | u, [] => u
  | u, DelayOp.use :: r => applyDelayOps ((u + 1) % 4294967296) r
  | u, DelayOp.done :: r => applyDelayOps ((u + 4294967295) % 4294967296) r

/-- sarama.ProducerMessage as submitted by process: topic from the
config, key the decimal text of the asset id, value the marshalled
record (carried as the record itself), metadata the tracking token. -/
structure ProducerMessage where
  Topic : String
  Key : String
  Value : MetricSplit
  Metadata : String
deriving DecidableEq, Repr

/-- Result of the profile-cache lookup GetConfigurationID: tags on
success, the well-known ErrUnconfigured, or an operational error. -/
inductive LookupResult where
  | tags (ts : List String)
  | unconfigured
  | opError
deriving DecidableEq, Repr

/-- The worker environment: the enrichment key set, the profile-cache
lookup (a function of the derived record, standing for
GetConfigurationID of its LookupID), the json.Marshal success
predicate, and the configuration fields process reads. -/
structure Ctx where
  lookKeys : String → Bool
  lookup : MetricSplit → LookupResult
  marshalOk : MetricSplit → Bool
  ProducerTopic : String
  InstanceName : String
  Num : Nat

/-- Worker-local state: the two in-flight tracking maps plus the
traces of externally visible effects, in emission order (commit
notifications, wait-policy operations, heartbeat calls, producer
submissions, death-channel sends, blocking reads of Shutdown). -/
structure WState where
  trackID : List (String × Int)
  trackACK : List (String × List Transport)
  commits : List Commit
  delayOps : List DelayOp
  heartbeats : List (String × Nat × List Nat)
  submissions : List ProducerMessage
  deaths : Nat
  shutdownWaits : Nat
deriving DecidableEq, Repr

/-- The application name reported with a heartbeat: twister, or
twister/name when an instance name is configured. -/
def appName (cx : Ctx) : String :=
  if cx.InstanceName = "" then "twister" else "twister/" ++ cx.InstanceName

/-- The per-record loop of Twister.process over the split records:
enrich, marshal, submit.  Returns the submissions made, the
wait-policy operations (one Use per spawned submission goroutine,
its Done linearized right after), the `produced` counter and whether
an operational cache error aborted the loop (death report followed by
a blocking read of Shutdown and an early return). -/
def processLoop (cx : Ctx) (tid : String) :
    List MetricSplit → List ProducerMessage × List DelayOp × Nat × Bool
  | [] => ([], [], 0, false)
  | sp :: rest =>
      let enriched : Option MetricSplit :=
        if cx.lookKeys sp.Path then
          match cx.lookup sp with
          | LookupResult.tags ts => some { sp with Tags := sp.Tags ++ ts }
          | LookupResult.unconfigured => some sp
          | LookupResult.opError => none
        else some sp
      match enriched with
      | none => ([], [], 0, true)
      | some sp2 =>
          if cx.marshalOk sp2 then
            let out := processLoop cx tid rest
            ({ Topic := cx.ProducerTopic, Key := toString sp2.AssetID,
               Value := sp2, Metadata := tid } :: out.1,
             DelayOp.use :: DelayOp.done :: out.2.1,
             out.2.2.1 + 1, out.2.2.2)
          else processLoop cx tid rest

/-- Twister.process: the batch handler.  `tid` is the fresh tracking
token (uuid.NewV4), `parse` the result of json.Unmarshal on the
payload (`none` embeds a parse error).  Branches in source order:
nil payload (commit, return), heartbeat (profile-cache Heartbeat,
return), malformed payload (commit, return), valid batch (split,
enrich, submit; on zero produced records commit immediately - note
the source spawns that commit goroutine without a preceding
delay.Use; otherwise install the tracking maps). -/
def process (cx : Ctx) (tid : String) (msg : Transport) (parse : Option MetricBatch)
    (s : WState) : WState :=
  if msg.Value.isNone then
    { s with delayOps := s.delayOps ++ [DelayOp.use, DelayOp.done],
             commits := s.commits ++ [commitOf msg] }
  else if IsHeartbeat msg then
    { s with delayOps := s.delayOps ++ [DelayOp.use, DelayOp.done],
             heartbeats := s.heartbeats ++ [(appName cx, cx.Num, msg.Value.getD [])] }
  else
    match parse with
    | none =>
        { s with delayOps := s.delayOps ++ [DelayOp.use, DelayOp.done],
                 commits := s.commits ++ [commitOf msg] }
    | some batch =>
        let out := processLoop cx tid batch.Split
        if out.2.2.2 then
          { s with submissions := s.submissions ++ out.1,
                   delayOps := s.delayOps ++ out.2.1,
                   deaths := s.deaths + 1,
                   shutdownWaits := s.shutdownWaits + 1 }
        else if out.2.2.1 = 0 then
          { s with submissions := s.submissions ++ out.1,
                   delayOps := s.delayOps ++ out.2.1 ++ [DelayOp.done],
                   commits := s.commits ++ [commitOf msg] }
        else
          { s with submissions := s.submissions ++ out.1,
                   delayOps := s.delayOps ++ out.2.1,
                   trackID := aset s.trackID tid (out.2.2.1 : Int),
                   trackACK := aset s.trackACK tid [msg] }

/-- Twister.updateOffset: on an unknown tracking token log a warning
and return; otherwise decrement the outstanding count; when it hits
zero, schedule a commit goroutine (Use/commit/Done) for every
envelope on the entry and delete the token from both maps. -/
def updateOffset (s : WState) (trackingID : String) : WState :=
  match alookup s.trackID trackingID with
  | none => s
  | some cnt =>
      if cnt - 1 = 0 then
        let acks := (alookup s.trackACK trackingID).getD []
        { s with trackID := aerase s.trackID trackingID,
                 trackACK := aerase s.trackACK trackingID,
                 commits := s.commits ++ acks.map commitOf,
                 delayOps := s.delayOps ++
                   (acks.map fun _ => [DelayOp.use, DelayOp.done]).flatten }
      else
        { s with trackID := aset s.trackID trackingID (cnt - 1) }

/-- k successive acknowledgements carrying the same tracking token. -/
def iterUpdate (trackingID : String) : Nat → WState → WState
  | 0, s => s
  | k + 1, s => iterUpdate trackingID k (updateOffset s trackingID)

/-- Externally visible worker actions of the run loop. -/
inductive WAction where
  | sendDeath
  | recvShutdown
  | closeProducer
  | waitDelay
deriving DecidableEq, Repr

/-- Control outcome of one arm of the running-state select. -/
inductive RunControl where
  | loop
  | drainMode
  | errorExit
deriving DecidableEq, Repr

/-- One event the running-state select can wake on: the shutdown
channel, the producer error stream, the producer success stream (the
echoed metadata is the tracking token), or the input channel (an
envelope together with its parse result and the fresh token its
processing would draw, or nil when the closed channel is read). -/
inductive RunEvent where
  | shutdown
  | producerError
  | producerSuccess (tid : String)
  | inputMsg (m : Option (Transport × Option MetricBatch × String))

/-- One arm of the running-state select of Twister.run.  The producer
error arm reports on Death and then blocks on Shutdown before
breaking out of the loop. -/
def runStep (cx : Ctx) (s : WState) (e : RunEvent) : WState × RunControl × List WAction :=
  match e with
  | RunEvent.shutdown => (s, RunControl.drainMode, [])
  | RunEvent.producerError =>
      (s, RunControl.errorExit, [WAction.sendDeath, WAction.recvShutdown])
  | RunEvent.producerSuccess tid => (updateOffset s tid, RunControl.loop, [])
  | RunEvent.inputMsg none => (s, RunControl.loop, [])
  | RunEvent.inputMsg (some (m, p, tid)) => (process cx tid m p s, RunControl.loop, [])

/-- The running-state loop of Twister.run over a finite event
sequence: arms that continue loop on; the error arm breaks and then
closes the producer; the shutdown arm transfers to the drain loop. -/
def runLoop (cx : Ctx) (s : WState) : List RunEvent → WState × RunControl × List WAction
  | [] => (s, RunControl.loop, [])
  | e :: es =>
      match runStep cx s e with
      | (s1, RunControl.loop, _) => runLoop cx s1 es
      | (s1, RunControl.errorExit, acts) =>
          (s1, RunControl.errorExit, acts ++ [WAction.closeProducer])
      | (s1, RunControl.drainMode, acts) => (s1, RunControl.drainMode, acts)

/-- State of the drain loop: the worker state plus the four local
flags of Twister.run and the trace of close/wait actions. -/
structure DrainState where
  w : WState
  inputEmpty : Bool
  errorEmpty : Bool
  successEmpty : Bool
  producerClosed : Bool
  actions : List WAction
deriving Repr

/-- One event the drain-state select can wake on: an input envelope
(nil embeds the closed-channel sentinel), a producer error (nil
embeds the closed error stream), or a producer success (nil embeds
the closed success stream). -/
inductive DrainEvent where
  | inputMsg (m : Option (Transport × Option MetricBatch × String))
  | producerError (isNil : Bool)
  | producerSuccess (m : Option String)

/-- One arm of the drain-loop select.  Returns the new state and
whether the `break drainloop` fired.  The producer is closed exactly
in the arm that observes the nil input sentinel, guarded by the
producerClosed flag. -/
def drainStep (cx : Ctx) (s : DrainState) (e : DrainEvent) : DrainState × Bool :=
  match e with
  | DrainEvent.inputMsg none =>
      let s1 := { s with inputEmpty := true }
      let s2 :=
        if s1.producerClosed then s1
        else { s1 with producerClosed := true,
                       actions := s1.actions ++ [WAction.closeProducer] }
      (s2, s2.inputEmpty && s2.errorEmpty && s2.successEmpty)
  | DrainEvent.inputMsg (some (m, p, tid)) =>
      ({ s with w := process cx tid m p s.w }, false)
  | DrainEvent.producerError true =>
      let s1 := { s with errorEmpty := true }
      (s1, s1.inputEmpty && s1.errorEmpty && s1.successEmpty)
  | DrainEvent.producerError false => (s, false)
  | DrainEvent.producerSuccess none =>
      let s1 := { s with successEmpty := true }
      (s1, s1.inputEmpty && s1.errorEmpty && s1.successEmpty)
  | DrainEvent.producerSuccess (some tid) =>
      ({ s with w := updateOffset s.w tid }, false)

/-- The drain loop over a finite event sequence; the Bool result
records whether `break drainloop` fired. -/
def drainRun (cx : Ctx) (s : DrainState) : List DrainEvent → DrainState × Bool
  | [] => (s, false)
  | e :: es =>
      let o := drainStep cx s e
      if o.2 then (o.1, true) else drainRun cx o.1 es

/-- Drain-loop entry state: all sentinel flags false, producer still
open. -/
def drainInit (w : WState) : DrainState := ⟨w, false, false, false, false, []⟩

/-- The tail of Twister.run: run the drain loop and, when it breaks,
wait on the delay policy before returning. -/
def runDrainPhase (cx : Ctx) (w : WState) (es : List DrainEvent) :
    DrainState × Bool × List WAction :=
  let o := drainRun cx (drainInit w) es
  (o.1, o.2, if o.2 then o.1.actions ++ [WAction.waitDelay] else o.1.actions)

/-- The module-level handler registry: main registers one worker
under each key 0 .. numCPU-1, in that order. -/
def HandlersMap : Nat → List (Int × Unit)
  | 0 => []
  | w + 1 => HandlersMap w ++ [((w : Int), ())]

/-- Outcome of Dispatch: delivery to a worker queue, a peek error
returned to the caller, or the run-time panic of invoking
InputChannel on the nil handler a missed map read yields. -/
inductive DispatchOutcome where
  | routed (worker : Int)
  | peekFailed
  | panicked
deriving DecidableEq, Repr

/-- Dispatch (internal/twister/dispatch.go): peek the host id out of
the payload (its result embedded as `peeked`), then deliver to
`Handlers[hostID % numCPU]`.  Go % is the truncated remainder
Int.tmod, negative for negative host ids. -/
def Dispatch (numCPU : Nat) (peeked : Option Int) : DispatchOutcome :=
  match peeked with
  | none => DispatchOutcome.peekFailed
  | some hostID =>
      match alookup (HandlersMap numCPU) (Int.tmod hostID (numCPU : Int)) with
      | some _ => DispatchOutcome.routed (Int.tmod hostID (numCPU : Int))
      | none => DispatchOutcome.panicked

/-- Concrete environment for witnesses: no enrichment keys, cache
always unconfigured, marshalling always succeeds, producer topic t,
no instance name, worker number 0. -/
def cx0 : Ctx :=
  ⟨fun _ => false, fun _ => LookupResult.unconfigured, fun _ => true, "t", "", 0⟩

/-- A fresh worker state with empty maps and empty traces. -/
def w0 : WState := ⟨[], [], [], [], [], [], 0, 0⟩

/-- Commit notification offset 103 on partition (m, 0). -/
def c103 : Commit := ⟨"m", 0, 103⟩

/-- Commit notification offset 104 on partition (m, 0). -/
def c104 : Commit := ⟨"m", 0, 104⟩

/-- Commit notification offset 105 on partition (m, 0). -/
def c105 : Commit := ⟨"m", 0, 105⟩

/-- A parsed batch with no data blocks (zero derived records). -/
def batchNoData : MetricBatch := ⟨2, 1, []⟩

/-- A parsed batch with one data block holding a single float metric
(host 7, metric cpu, subtype user). -/
def batchOneMetric : MetricBatch :=
  ⟨7, 1, [⟨1700000000, [⟨"cpu", "user", ⟨42⟩⟩], [], []⟩]⟩

/-- The schedule where a feeder goroutine runs its wg.Add(1) before
the main goroutine reaches wg.Wait(). -/
def schedEarlyAdd : BlockSchedule := ⟨true, false, false, false⟩

/-- The schedule where every spawned goroutine runs only after the
main goroutine has passed both Wait calls and read res. -/
def schedAllLate : BlockSchedule := ⟨false, false, false, false⟩

/-- An envelope whose valid payload parses to the empty batch. -/
def envEmptyBatch : Transport := ⟨2, some [1], "m", 0, 101⟩

/-- A heartbeat envelope: sentinel coordinates and a binary-timestamp
payload (which is not valid JSON, so unmarshalling it would fail). -/
def hbEnv : Transport := ⟨-1, some [13], "erebos.heartbeat", -1, -1⟩

/-- An envelope with a nil payload. -/
def envNil : Transport := ⟨5, none, "m", 0, 200⟩

/-- An ordinary envelope used in the tracking fixtures. -/
def e0 : Transport := ⟨7, some [1], "m", 0, 100⟩

/-- A worker state with token a outstanding count 2 and envelope e0
pending commit. -/
def s2w : WState := ⟨[("a", 2)], [("a", [e0])], [], [], [], [], 0, 0⟩

/-- Drain events: input sentinel, error-stream sentinel,
success-stream sentinel. -/
def ev9 : List DrainEvent :=
  [DrainEvent.inputMsg none, DrainEvent.producerError true, DrainEvent.producerSuccess none]

/- ------------------------------------------------------------------
Helper lemmas about the association-list embedding of Go maps.
------------------------------------------------------------------ -/

theorem alookup_append {α β : Type} [DecidableEq α] (l1 l2 : List (α × β)) (k : α) :
    alookup (l1 ++ l2) k =
      match alookup l1 k with
      | some v => some v
      | none => alookup l2 k := by
  induction l1 with
  | nil => simp [alookup]
  | cons p rest ih =>
      obtain ⟨a, b⟩ := p
      by_cases hak : a = k <;> simp [alookup, hak, ih]

theorem alookup_aset_self {α β : Type} [DecidableEq α] (l : List (α × β)) (k : α) (v : β) :
    alookup (aset l k v) k = some v := by
  induction l with
  | nil => simp [aset, alookup]
  | cons p rest ih =>
      obtain ⟨a, b⟩ := p
      by_cases hak : a = k <;> simp [aset, alookup, hak, ih]

theorem alookup_eq_none_of_not_mem {α β : Type} [DecidableEq α]
    (l : List (α × β)) (k : α) (h : k ∉ l.map Prod.fst) : alookup l k = none := by
  induction l with
  | nil => rfl
  | cons p rest ih =>
      obtain ⟨a, b⟩ := p
      simp only [List.map_cons, List.mem_cons] at h
      push_neg at h
      have hak : a ≠ k := fun hc => h.1 hc.symm
      simp [alookup, hak, ih h.2]

theorem alookup_aerase_self {α β : Type} [DecidableEq α] (l : List (α × β)) (k : α)
    (h : (l.map Prod.fst).Nodup) : alookup (aerase l k) k = none := by
  induction l with
  | nil => rfl
  | cons p rest ih =>
      obtain ⟨a, b⟩ := p
      simp only [List.map_cons, List.nodup_cons] at h
      by_cases hak : a = k
      · subst hak
        simp only [aerase, if_pos rfl]
        exact alookup_eq_none_of_not_mem rest a h.1
      · simp [aerase, alookup, hak, ih h.2]

theorem mem_keys_of_mem_aset {α β : Type} [DecidableEq α]
    (l : List (α × β)) (k x : α) (v : β)
    (h : x ∈ (aset l k v).map Prod.fst) : x ∈ l.map Prod.fst ∨ x = k := by
  induction l with
  | nil => simp [aset] at h; exact Or.inr h
  | cons p rest ih =>
      obtain ⟨a, b⟩ := p
      by_cases hak : a = k
      · simp only [aset, if_pos hak, List.map_cons, List.mem_cons] at h
        rcases h with h | h
        · exact Or.inl (by simp [h])
        · exact Or.inl (by simp [h])
      · simp only [aset, if_neg hak, List.map_cons, List.mem_cons] at h
        rcases h with h | h
        · exact Or.inl (by simp [h])
        · rcases ih h with h2 | h2
          · exact Or.inl (by simp [h2])
          · exact Or.inr h2

theorem aset_keys_nodup {α β : Type} [DecidableEq α] (l : List (α × β)) (k : α) (v : β)
    (h : (l.map Prod.fst).Nodup) : ((aset l k v).map Prod.fst).Nodup := by
  induction l with
  | nil => simp [aset]
  | cons p rest ih =>
      obtain ⟨a, b⟩ := p
      simp only [List.map_cons, List.nodup_cons] at h
      by_cases hak : a = k
      · simp only [aset, if_pos hak, List.map_cons, List.nodup_cons]
        exact ⟨h.1, h.2⟩
      · simp only [aset, if_neg hak, List.map_cons, List.nodup_cons]
        refine ⟨fun hmem => ?_, ih h.2⟩
        rcases mem_keys_of_mem_aset rest k a v hmem with h2 | h2
        · exact h.1 h2
        · exact hak h2

/- ------------------------------------------------------------------
Single-step facts about updateOffset.
------------------------------------------------------------------ -/

theorem updateOffset_decrement (s : WState) (tid : String) (n : Int)
    (hid : alookup s.trackID tid = some n) (hn : ¬ n - 1 = 0) :
    updateOffset s tid = { s with trackID := aset s.trackID tid (n - 1) } := by
  simp [updateOffset, hid, hn]

theorem updateOffset_retire (s : WState) (tid : String) (es : List Transport)
    (hid : alookup s.trackID tid = some 1)
    (hack : alookup s.trackACK tid = some es) :
    updateOffset s tid =
      { s with trackID := aerase s.trackID tid,
               trackACK := aerase s.trackACK tid,
               commits := s.commits ++ es.map commitOf,
               delayOps := s.delayOps ++
                 (es.map fun _ => [DelayOp.use, DelayOp.done]).flatten } := by
  simp [updateOffset, hid, hack]

/- ------------------------------------------------------------------
Iterated acknowledgements for one tracking token.
------------------------------------------------------------------ -/

theorem iterUpdate_mid (tid : String) :
    ∀ (k n : Nat) (s : WState) (es : List Transport),
      k < n →
      alookup s.trackID tid = some (n : Int) →
      alookup s.trackACK tid = some es →
      (s.trackID.map Prod.fst).Nodup →
      (s.trackACK.map Prod.fst).Nodup →
      (iterUpdate tid k s).commits = s.commits ∧
      alookup (iterUpdate tid k s).trackID tid = some ((n - k : Nat) : Int) ∧
      alookup (iterUpdate tid k s).trackACK tid = some es ∧
      ((iterUpdate tid k s).trackID.map Prod.fst).Nodup ∧
      ((iterUpdate tid k s).trackACK.map Prod.fst).Nodup := by
  intro k
  induction k with
  | zero =>
      intro n s es _ hid hack hnd1 hnd2
      exact ⟨rfl, by simpa using hid, hack, hnd1, hnd2⟩
  | succ k ih =>
      intro n s es hkn hid hack hnd1 hnd2
      have hn2 : 2 ≤ n := by omega
      have hne : ¬ ((n : Int) - 1 = 0) := by omega
      have hstep := updateOffset_decrement s tid (n : Int) hid hne
      have hcast : ((n : Int) - 1) = ((n - 1 : Nat) : Int) := by omega
      have hid1 : alookup (updateOffset s tid).trackID tid = some ((n - 1 : Nat) : Int) := by
        rw [hstep, ← hcast]
        exact alookup_aset_self s.trackID tid ((n : Int) - 1)
      have hack1 : alookup (updateOffset s tid).trackACK tid = some es := by
        rw [hstep]; exact hack
      have hnd1a : ((updateOffset s tid).trackID.map Prod.fst).Nodup := by
        rw [hstep]
        exact aset_keys_nodup s.trackID tid ((n : Int) - 1) hnd1
      have hnd2a : ((updateOffset s tid).trackACK.map Prod.fst).Nodup := by
        rw [hstep]; exact hnd2
      have hk1 : k < n - 1 := by omega
      have hiter : iterUpdate tid (k + 1) s = iterUpdate tid k (updateOffset s tid) := rfl
      have hres := ih (n - 1) (updateOffset s tid) es hk1 hid1 hack1 hnd1a hnd2a
      have hcomm : (updateOffset s tid).commits = s.commits := by rw [hstep]
      have hsub : n - 1 - k = n - (k + 1) := by omega
      rw [hiter]
      refine ⟨hres.1.trans hcomm, ?_, hres.2.2.1, hres.2.2.2.1, hres.2.2.2.2⟩
      rw [hres.2.1, hsub]

theorem iterUpdate_full (tid : String) :
    ∀ (n : Nat) (s : WState) (es : List Transport),
      0 < n →
      alookup s.trackID tid = some (n : Int) →
      alookup s.trackACK tid = some es →
      (s.trackID.map Prod.fst).Nodup →
      (s.trackACK.map Prod.fst).Nodup →
      (iterUpdate tid n s).commits = s.commits ++ es.map commitOf ∧
      alookup (iterUpdate tid n s).trackID tid = none ∧
      alookup (iterUpdate tid n s).trackACK tid = none := by
  intro n
  induction n with
  | zero => intro s es h; omega
  | succ m ih =>
      intro s es _ hid hack hnd1 hnd2
      by_cases hm : m = 0
      · subst hm
        have hid1 : alookup s.trackID tid = some 1 := by simpa using hid
        have hstep := updateOffset_retire s tid es hid1 hack
        have hiter : iterUpdate tid 1 s = updateOffset s tid := rfl
        rw [hiter, hstep]
        refine ⟨rfl, ?_, ?_⟩
        · exact alookup_aerase_self s.trackID tid hnd1
        · exact alookup_aerase_self s.trackACK tid hnd2
      · have hne : ¬ (((m + 1 : Nat) : Int) - 1 = 0) := by omega
        have hstep := updateOffset_decrement s tid ((m + 1 : Nat) : Int) hid hne
        have hcast : (((m + 1 : Nat) : Int) - 1) = ((m : Nat) : Int) := by omega
        have hid1 : alookup (updateOffset s tid).trackID tid = some ((m : Nat) : Int) := by
          rw [hstep, ← hcast]
          exact alookup_aset_self s.trackID tid (((m + 1 : Nat) : Int) - 1)
        have hack1 : alookup (updateOffset s tid).trackACK tid = some es := by
          rw [hstep]; exact hack
        have hnd1a : ((updateOffset s tid).trackID.map Prod.fst).Nodup := by
          rw [hstep]
          exact aset_keys_nodup s.trackID tid (((m + 1 : Nat) : Int) - 1) hnd1
        have hnd2a : ((updateOffset s tid).trackACK.map Prod.fst).Nodup := by
          rw [hstep]; exact hnd2
        have hres := ih (updateOffset s tid) es (by omega) hid1 hack1 hnd1a hnd2a
        have hcomm : (updateOffset s tid).commits = s.commits := by rw [hstep]
        have hiter : iterUpdate tid (m + 1) s = iterUpdate tid m (updateOffset s tid) := rfl
        rw [hiter]
        exact ⟨by rw [hres.1, hcomm], hres.2.1, hres.2.2⟩

/- ------------------------------------------------------------------
Split length helpers.
------------------------------------------------------------------ -/

theorem splitData_length (hostID : Int) (d : MetricData) :
    (splitData hostID d).length =
      d.FloatMetrics.length + d.StringMetrics.length + d.IntMetrics.length := by
  simp [splitData, splitFloats, splitStrings, splitInts]
  omega

theorem split_foldl_length (hostID : Int) :
    ∀ (l : List MetricData) (acc : List MetricSplit),
      (l.foldl (fun res d => res ++ splitData hostID d) acc).length =
        acc.length +
          (l.map fun d =>
            d.FloatMetrics.length + d.StringMetrics.length + d.IntMetrics.length).sum := by
  intro l
  induction l with
  | nil => intro acc; simp
  | cons d rest ih =>
      intro acc
      simp only [List.foldl_cons, List.map_cons, List.sum_cons]
      rw [ih]
      simp [splitData_length]
      omega

/- ------------------------------------------------------------------
Drain-loop invariants.
------------------------------------------------------------------ -/

theorem drainStep_preserves_closed_imp_input (cx : Ctx) (e : DrainEvent) (s : DrainState)
    (h : s.producerClosed = true → s.inputEmpty = true) :
    (drainStep cx s e).1.producerClosed = true → (drainStep cx s e).1.inputEmpty = true := by
  cases e with
  | inputMsg m =>
      cases m with
      | none =>
          by_cases hpc : s.producerClosed <;> intro _ <;> simp [drainStep, hpc]
      | some t =>
          obtain ⟨m1, p1, t1⟩ := t
          exact h
  | producerError b => cases b <;> exact h
  | producerSuccess m => cases m <;> exact h

theorem drainStep_break_flags (cx : Ctx) (e : DrainEvent) (s : DrainState)
    (h : (drainStep cx s e).2 = true) :
    (drainStep cx s e).1.inputEmpty = true ∧
    (drainStep cx s e).1.errorEmpty = true ∧
    (drainStep cx s e).1.successEmpty = true := by
  cases e with
  | inputMsg m =>
      cases m with
      | none =>
          by_cases hpc : s.producerClosed <;>
            · simp only [drainStep, hpc] at h ⊢
              simp only [Bool.and_eq_true] at h
              simp_all
      | some t =>
          obtain ⟨m1, p1, t1⟩ := t
          simp [drainStep] at h
  | producerError b =>
      cases b with
      | false => simp [drainStep] at h
      | true =>
          simp only [drainStep] at h ⊢
          simp only [Bool.and_eq_true] at h
          simp_all
  | producerSuccess m =>
      cases m with
      | none =>
          simp only [drainStep] at h ⊢
          simp only [Bool.and_eq_true] at h
          simp_all
      | some t => simp [drainStep] at h

theorem drainRun_closed_imp_input (cx : Ctx) :
    ∀ (es : List DrainEvent) (s : DrainState),
      (s.producerClosed = true → s.inputEmpty = true) →
      ((drainRun cx s es).1.producerClosed = true →
        (drainRun cx s es).1.inputEmpty = true) := by
  intro es
  induction es with
  | nil => intro s h; simpa [drainRun] using h
  | cons e rest ih =>
      intro s h
      have hstep := drainStep_preserves_closed_imp_input cx e s h
      by_cases hbr : (drainStep cx s e).2 = true
      · simp [drainRun, hbr]
        exact hstep
      · simp only [Bool.not_eq_true] at hbr
        simp [drainRun, hbr]
        exact ih (drainStep cx s e).1 hstep

theorem drainRun_break_flags (cx : Ctx) :
    ∀ (es : List DrainEvent) (s : DrainState),
      (drainRun cx s es).2 = true →
      (drainRun cx s es).1.inputEmpty = true ∧
      (drainRun cx s es).1.errorEmpty = true ∧
      (drainRun cx s es).1.successEmpty = true := by
  intro es
  induction es with
  | nil => intro s h; simp [drainRun] at h
  | cons e rest ih =>
      intro s h
      by_cases hbr : (drainStep cx s e).2 = true
      · have := drainStep_break_flags cx e s hbr
        simpa [drainRun, hbr] using this
      · simp only [Bool.not_eq_true] at hbr
        simp only [drainRun, hbr, Bool.false_eq_true, if_false] at h ⊢
        exact ih (drainStep cx s e).1 h

/- ------------------------------------------------------------------
Handler registry facts.
------------------------------------------------------------------ -/

theorem alookup_handlersMap (w : Nat) (i : Int) (h0 : 0 ≤ i) (h1 : i < (w : Int)) :
    alookup (HandlersMap w) i = some () := by
  induction w with
  | zero => omega
  | succ n ih =>
      show alookup (HandlersMap n ++ [((n : Int), ())]) i = some ()
      rw [alookup_append]
      by_cases hi : i < (n : Int)
      · rw [ih hi]
      · have hieq : i = (n : Int) := by omega
        subst hieq
        cases hlk : alookup (HandlersMap n) ((n : Nat) : Int) with
        | some u => simp
        | none => simp [alookup]

theorem handlersMap_keys_nonneg (w : Nat) :
    ∀ x ∈ (HandlersMap w).map Prod.fst, 0 ≤ x := by
  induction w with
  | zero => intro x hx; simp [HandlersMap] at hx
  | succ n ih =>
      intro x hx
      simp only [HandlersMap, List.map_append, List.mem_append] at hx
      rcases hx with hx | hx
      · exact ih x hx
      · simp at hx
        omega

theorem alookup_handlersMap_neg (w : Nat) (i : Int) (hi : i < 0) :
    alookup (HandlersMap w) i = none := by
  refine alookup_eq_none_of_not_mem (HandlersMap w) i fun hmem => ?_
  have := handlersMap_keys_nonneg w i hmem
  omega

theorem tmod_nonpos_of_neg (h w : Int) (hh : h < 0) : Int.tmod h w ≤ 0 := by
  have h1 : (0 : Int) ≤ -h := by omega
  have h2 : 0 ≤ (-h).tmod w := Int.tmod_nonneg w h1
  have h3 : (-h).tmod w = -(h.tmod w) := by
    rw [Int.tmod_def, Int.tmod_def, Int.neg_tdiv]
    ring
  omega

theorem getLast_append_singleton {α : Type} (l : List α) (a : α) :
    (l ++ [a]).getLast? = some a := by
  induction l with
  | nil => rfl
  | cons x xs ih =>
      cases xs with
      | nil => rfl
      | cons y ys =>
          simp only [List.cons_append, List.getLast?_cons_cons]
          simpa using ih

/- ------------------------------------------------------------------
Claims.
------------------------------------------------------------------ -/

/-- C1.  The claim states that DelayedCommit passes offsets to
CommitUpto in a strictly increasing contiguous sequence, holding 105
back until 104 arrives.  Evaluating the embedded source on the
notification sequence 103, 105, 104 shows the opposite: every
notification is committed immediately in arrival order, because the
last-committed-offset map is never written after a commit, so the
first-offset branch fires on every notification.  The sequence handed
to CommitUpto is 103, 105, 104, which is not contiguous ascending. -/
theorem claim1_reassembler_commits_in_arrival_order :
    ((dcRun dcInit [c103, c105, c104]).committed.map Commit.Offset) = [103, 105, 104] ∧
    contiguousAsc ((dcRun dcInit [c103, c105, c104]).committed.map Commit.Offset) = false := by
  constructor
  · decide
  · decide

/-- C2.  Token lifecycle: with token tid outstanding at count n >= 1
and envelopes es pending, the first k < n acknowledgements emit no
commit and leave the token present at count n-k with its envelopes
intact, and the n-th acknowledgement emits exactly the commits of es
and deletes the token from both tracking maps. -/
theorem claim2_token_lifecycle (s : WState) (tid : String) (es : List Transport)
    (n k : Nat)
    (hid : alookup s.trackID tid = some (n : Int))
    (hack : alookup s.trackACK tid = some es)
    (hnd1 : (s.trackID.map Prod.fst).Nodup)
    (hnd2 : (s.trackACK.map Prod.fst).Nodup)
    (hn : 0 < n) :
    (k < n →
      (iterUpdate tid k s).commits = s.commits ∧
      alookup (iterUpdate tid k s).trackID tid = some ((n - k : Nat) : Int) ∧
      alookup (iterUpdate tid k s).trackACK tid = some es) ∧
    ((iterUpdate tid n s).commits = s.commits ++ es.map commitOf ∧
     alookup (iterUpdate tid n s).trackID tid = none ∧
     alookup (iterUpdate tid n s).trackACK tid = none) := by
  constructor
  · intro hk
    have h := iterUpdate_mid tid k n s es hk hid hack hnd1 hnd2
    exact ⟨h.1, h.2.1, h.2.2.1⟩
  · exact iterUpdate_full tid n s es hn hid hack hnd1 hnd2

theorem claim2_witness :
    (iterUpdate "a" 1 s2w).commits = [] ∧
    (iterUpdate "a" 2 s2w).commits = [commitOf e0] ∧
    alookup (iterUpdate "a" 2 s2w).trackID "a" = none ∧
    alookup (iterUpdate "a" 2 s2w).trackACK "a" = none := by
  have h := claim2_token_lifecycle s2w "a" [e0] 2 1
    (by decide) (by decide) (by decide) (by decide) (by decide)
  exact ⟨(h.1 (by decide)).1, h.2.1, h.2.2.1, h.2.2.2⟩

/-- C3 counterexample.  The claim states Dispatch reduces negative
host ids with unsigned modulus and never panics on them.  At host id
-1 with four workers, Go computes the truncated remainder -1, which
is not the unsigned residue 3, the handler map has no key -1, and the
method call on the nil handler panics. -/
theorem claim3_counterexample :
    Dispatch 4 (some (-1)) = DispatchOutcome.panicked ∧
    Int.tmod (-1) 4 ≠ ((-1 : Int) % 4) := by
  constructor
  · decide
  · decide

/-- C3 amended.  With a positive worker count, Dispatch on a peeked
host id behaves as follows.  Nonnegative host id: total and
deterministic delivery to worker host mod numCPU, where the Go
truncated remainder agrees with the mathematical modulus.  Negative
host id: Go computes the truncated remainder, which is nonpositive;
when it is nonzero the index misses the handler registry and the
call on the nil handler panics, and when the host id is an exact
negative multiple of the worker count the remainder is 0 and the
envelope is routed to worker 0. -/
theorem claim3_amended_routing (w : Nat) (h : Int) (hw : 0 < w) :
    (0 ≤ h →
      Dispatch w (some h) = DispatchOutcome.routed (h % (w : Int)) ∧
      Int.tmod h (w : Int) = h % (w : Int)) ∧
    (h < 0 → Int.tmod h (w : Int) ≠ 0 →
      Dispatch w (some h) = DispatchOutcome.panicked) ∧
    (h < 0 → Int.tmod h (w : Int) = 0 →
      Dispatch w (some h) = DispatchOutcome.routed 0) := by
  have hwz : ((w : Int)) ≠ 0 := by
    simp only [ne_eq, Nat.cast_eq_zero]
    omega
  refine ⟨fun hh => ?_, fun hh hnz => ?_, fun hh hz => ?_⟩
  · have htm : Int.tmod h (w : Int) = h % (w : Int) :=
      Int.tmod_eq_emod hh (by positivity)
    have h0 : 0 ≤ h % (w : Int) := Int.emod_nonneg h hwz
    have h1 : h % (w : Int) < (w : Int) := Int.emod_lt_of_pos h (by exact_mod_cast hw)
    refine ⟨?_, htm⟩
    simp only [Dispatch, htm]
    rw [alookup_handlersMap w (h % (w : Int)) h0 h1]
  · have hle : Int.tmod h (w : Int) ≤ 0 := tmod_nonpos_of_neg h (w : Int) hh
    have hlt : Int.tmod h (w : Int) < 0 := by omega
    simp only [Dispatch]
    rw [alookup_handlersMap_neg w (Int.tmod h (w : Int)) hlt]
  · have h1 : (0 : Int) < (w : Int) := by exact_mod_cast hw
    simp only [Dispatch, hz]
    rw [alookup_handlersMap w 0 le_rfl h1]

theorem claim3_witness :
    Dispatch 4 (some 7) = DispatchOutcome.routed ((7 : Int) % 4) ∧
    Dispatch 4 (some (-5)) = DispatchOutcome.panicked ∧
    Dispatch 4 (some (-4)) = DispatchOutcome.routed 0 := by
  refine ⟨?_, ?_, ?_⟩
  · exact ((claim3_amended_routing 4 7 (by decide)).1 (by decide)).1
  · exact (claim3_amended_routing 4 (-5) (by decide)).2.1 (by decide) (by decide)
  · exact (claim3_amended_routing 4 (-4) (by decide)).2.2 (by decide) (by decide)

/-- C4.  The claim states every Done on the wait-policy counter is
preceded by a matching Use, in particular on the zero-record commit
path.  Evaluating process on a valid envelope whose batch has no data
blocks shows the spawned commit goroutine performs a Done with no Use
anywhere in the trace: the uint32 counter, started at its quiescent
value 0, wraps to 2^32 - 1, so it does not return to zero and
Delay.Wait never unblocks. -/
theorem claim4_zero_record_done_without_use :
    (process cx0 "t0" envEmptyBatch (some batchNoData) w0).delayOps = [DelayOp.done] ∧
    (process cx0 "t0" envEmptyBatch (some batchNoData) w0).commits = [commitOf envEmptyBatch] ∧
    applyDelayOps 0 (process cx0 "t0" envEmptyBatch (some batchNoData) w0).delayOps =
      4294967295 := by
  refine ⟨?_, ?_, ?_⟩ <;> decide

/-- C5.  The claim states Split returns exactly one derived record
per metric.  The pinned solnx source moves wg.Add(1) and cwg.Add(1)
inside the spawned goroutines and never calls Done, so that law
fails: evaluating the schedule-faithful embedding on a batch with one
float metric shows the schedule in which a feeder Add precedes
wg.Wait deadlocks, and the schedule in which every goroutine runs
after the main goroutine returns zero records - not the one record
per metric the claim (and the correct vendored split.go, whose value
semantics splitData captures) requires. -/
theorem claim5_split_races_lose_or_deadlock :
    MetricBatch.SplitRace batchOneMetric [schedEarlyAdd] = SplitOutcome.deadlock ∧
    MetricBatch.SplitRace batchOneMetric [schedAllLate] = SplitOutcome.ok [] ∧
    (batchOneMetric.Data.map fun d =>
      d.FloatMetrics.length + d.StringMetrics.length + d.IntMetrics.length).sum = 1 ∧
    (MetricBatch.Split batchOneMetric).length = 1 := by
  refine ⟨?_, ?_, ?_, ?_⟩ <;> decide

/-- C6 counterexample.  The claim quantifies over every envelope
whose payload fails to unmarshal; a heartbeat envelope is such an
envelope (its payload is a binary timestamp, not JSON), yet process
takes the heartbeat branch before ever parsing and emits no commit
notification, not exactly one. -/
theorem claim6_counterexample :
    (process cx0 "t0" hbEnv none w0).commits = [] ∧
    ([] : List Commit) ≠ [commitOf hbEnv] := by
  constructor
  · decide
  · decide

/-- C6 amended.  For every envelope whose payload is nil, and for
every non-heartbeat envelope whose payload fails to unmarshal as a
MetricBatch, process emits exactly one commit notification for the
envelope, submits nothing to the producer, and leaves both tracking
maps unchanged. -/
theorem claim6_amended_commit_without_install (cx : Ctx) (tid : String)
    (msg : Transport) (parse : Option MetricBatch) (s : WState)
    (h : msg.Value = none ∨
         (IsHeartbeat msg = false ∧ msg.Value ≠ none ∧ parse = none)) :
    (process cx tid msg parse s).commits = s.commits ++ [commitOf msg] ∧
    (process cx tid msg parse s).submissions = s.submissions ∧
    (process cx tid msg parse s).trackID = s.trackID ∧
    (process cx tid msg parse s).trackACK = s.trackACK := by
  rcases h with hnil | ⟨hhb, hsome, hparse⟩
  · simp [process, hnil]
  · have hin : msg.Value.isNone = false := by
      cases hv : msg.Value with
      | none => exact absurd hv hsome
      | some v => rfl
    subst hparse
    simp [process, hin, hhb]

theorem claim6_witness :
    (process cx0 "t0" envNil none w0).commits = [commitOf envNil] ∧
    (process cx0 "t0" envNil none w0).submissions = [] ∧
    (process cx0 "t0" envNil none w0).trackID = [] ∧
    (process cx0 "t0" envNil none w0).trackACK = [] :=
  claim6_amended_commit_without_install cx0 "t0" envNil none w0 (Or.inl rfl)

/-- C7.  For every heartbeat envelope with a payload, process makes
no submission, emits no commit and changes no tracking state; its
only effect besides the wait-policy bracket is one profile-cache
Heartbeat call carrying the application name, the worker number and
the binary-timestamp payload. -/
theorem claim7_heartbeat_no_commit_no_submit (cx : Ctx) (tid : String)
    (msg : Transport) (v : List Nat) (parse : Option MetricBatch) (s : WState)
    (hv : msg.Value = some v) (hhb : IsHeartbeat msg = true) :
    process cx tid msg parse s =
      { s with delayOps := s.delayOps ++ [DelayOp.use, DelayOp.done],
               heartbeats := s.heartbeats ++ [(appName cx, cx.Num, v)] } := by
  simp [process, hv, hhb]

theorem claim7_witness :
    process cx0 "t0" hbEnv none w0 =
      { w0 with delayOps := w0.delayOps ++ [DelayOp.use, DelayOp.done],
                heartbeats := w0.heartbeats ++ [(appName cx0, cx0.Num, [13])] } :=
  claim7_heartbeat_no_commit_no_submit cx0 "t0" hbEnv [13] none w0 rfl rfl

/-- C8.  When the running-state loop receives a producer error, it
sends on the death channel, blocks on the shutdown channel, exits the
loop and closes the producer - in that order - consuming no further
event; the worker state, and with it every tracking-map entry and the
commit trace, is left exactly as it was, so no envelope still
in-flight is committed. -/
theorem claim8_producer_error_path (cx : Ctx) (s : WState) (es : List RunEvent) :
    runLoop cx s (RunEvent.producerError :: es) =
      (s, RunControl.errorExit,
        [WAction.sendDeath, WAction.recvShutdown, WAction.closeProducer]) ∧
    (runLoop cx s (RunEvent.producerError :: es)).1.commits = s.commits ∧
    (runLoop cx s (RunEvent.producerError :: es)).1.trackID = s.trackID := by
  exact ⟨rfl, rfl, rfl⟩

/-- C9.  Drain protocol: the producer is closed only after the nil
input sentinel has been observed; the drain loop breaks only once all
three sentinels (input, error stream, success stream) have been
observed; and when it breaks, the last action of the run is the wait
on the delay policy. -/
theorem claim9_drain_protocol (cx : Ctx) (w : WState) (es : List DrainEvent) :
    ((runDrainPhase cx w es).1.producerClosed = true →
      (runDrainPhase cx w es).1.inputEmpty = true) ∧
    ((runDrainPhase cx w es).2.1 = true →
      (runDrainPhase cx w es).1.inputEmpty = true ∧
      (runDrainPhase cx w es).1.errorEmpty = true ∧
      (runDrainPhase cx w es).1.successEmpty = true ∧
      (runDrainPhase cx w es).2.2.getLast? = some WAction.waitDelay) := by
  constructor
  · intro hc
    have hinit : (drainInit w).producerClosed = true → (drainInit w).inputEmpty = true := by
      intro hx
      simp [drainInit] at hx
    exact drainRun_closed_imp_input cx es (drainInit w) hinit hc
  · intro hb
    have hb2 : (drainRun cx (drainInit w) es).2 = true := hb
    have hfl := drainRun_break_flags cx es (drainInit w) hb2
    refine ⟨hfl.1, hfl.2.1, hfl.2.2, ?_⟩
    show (if (drainRun cx (drainInit w) es).2 then
            (drainRun cx (drainInit w) es).1.actions ++ [WAction.waitDelay]
          else (drainRun cx (drainInit w) es).1.actions).getLast? =
          some WAction.waitDelay
    rw [if_pos hb2]
    exact getLast_append_singleton _ _

theorem claim9_witness :
    (runDrainPhase cx0 w0 ev9).2.1 = true ∧
    (runDrainPhase cx0 w0 ev9).1.producerClosed = true ∧
    (runDrainPhase cx0 w0 ev9).1.inputEmpty = true ∧
    (runDrainPhase cx0 w0 ev9).2.2.getLast? = some WAction.waitDelay := by
  refine ⟨by decide, by decide, ?_, ?_⟩
  · exact (claim9_drain_protocol cx0 w0 ev9).1 (by decide)
  · exact ((claim9_drain_protocol cx0 w0 ev9).2 (by decide)).2.2.2

/-- C10.  An acknowledgement carrying a tracking token that is not in
the in-flight table leaves the worker state entirely unchanged: both
tracking maps keep their contents, no commit notification is emitted,
and nothing panics (updateOffset is total). -/
theorem claim10_unknown_token_no_effect (s : WState) (tid : String)
    (h : alookup s.trackID tid = none) :
    updateOffset s tid = s := by
  simp [updateOffset, h]

theorem claim10_witness :
    alookup (WState.trackID w0) "zz" = none ∧ updateOffset w0 "zz" = w0 :=
  ⟨rfl, claim10_unknown_token_no_effect w0 "zz" rfl⟩

end Twister
